import Mathlib

/-!
Shallow embedding of src/memDB.js (memDB: simple array and object based
in-memory database) and verification of the frozen claims about it.

Modelling conventions:
  - JavaScript runtime errors (TypeError from property access on undefined,
    from Object.entries(null), from constructing a Proxy over undefined) are
    modelled with the JSError type; fallible operations return Except.
  - JavaScript values stored in records and used in filters are modelled by
    JSVal: strings, integer-valued numbers, booleans, null and undefined.
    Numeric literals are modelled as integers and numeric strings as decimal
    integer numerals; this is the fragment the claims quantify over.
  - A record (an item, in the wording of the source) is an open attribute map
    plus a reference identity: distinct object allocations carry distinct
    ref values, and strict equality (===, used by Array.prototype.indexOf)
    is equality of the model values including ref.
  - In-place mutation through aliases is modelled by state passing: mutating
    operations return the new store; the update callback is a pure
    transformer of the attribute list of the record it would be given.
  - The source bodies of _update and _delete call the identifier get, which
    no declaration of the script binds (only _get is declared), so both
    embeddings throw a ReferenceError on every invocation.
-/

/-- Runtime errors thrown by the JavaScript engine while the code runs:
TypeError from property access on undefined, from Object.entries on null or
undefined and from constructing a Proxy over undefined; ReferenceError from
reading an identifier that no declaration binds. -/
inductive JSError
  | typeError
  | referenceError
deriving DecidableEq

/-- Equality of embedded outcomes is decidable, so witnesses can evaluate. -/
instance {ε α : Type} [DecidableEq ε] [DecidableEq α] : DecidableEq (Except ε α) :=
  fun x y =>
    match x, y with
    | .ok a, .ok b =>
      if h : a = b then isTrue (by rw [h]) else isFalse (by intro he; cases he; exact h rfl)
    | .error a, .error b =>
      if h : a = b then isTrue (by rw [h]) else isFalse (by intro he; cases he; exact h rfl)
    | .ok _, .error _ => isFalse (by intro he; cases he)
    | .error _, .ok _ => isFalse (by intro he; cases he)

/-- The fragment of JavaScript values that records and filters range over. -/
inductive JSVal
  | str : String → JSVal
  | num : Int → JSVal
  | bool : Bool → JSVal
  | null : JSVal
  | undef : JSVal
deriving DecidableEq

/-- Reads a decimal Nat from a character list; any non-digit yields none.
An empty list yields some 0 (callers guard emptiness where JS would not). -/
def digitsToNat : List Char → Option Nat
  | [] => some 0
  | c :: cs =>
    if c.isDigit then
      match digitsToNat cs with
      | some n => some ((c.toNat - 48) * 10 ^ cs.length + n)
      | none => none
    else none

/-- JavaScript ToNumber on a string, restricted to decimal integer numerals:
trims whitespace, the empty string is 0, an optional sign followed by digits
is the signed value, anything else is NaN (modelled as none). -/
def strToNumber (s : String) : Option Int :=
  let t := ((s.toList.dropWhile Char.isWhitespace).reverse.dropWhile Char.isWhitespace).reverse
  if t = [] then some 0
  else
    match t with
    | '-' :: rest =>
      if rest = [] then none
      else (digitsToNat rest).map (fun n => -(n : Int))
    | '+' :: rest =>
      if rest = [] then none
      else (digitsToNat rest).map (fun n => (n : Int))
    | cs => (digitsToNat cs).map (fun n => (n : Int))

/-- JavaScript ToNumber on the modelled values; none stands for NaN. -/
def toNumber : JSVal → Option Int
  | .num n => some n
  | .str s => strToNumber s
  | .bool b => some (if b then 1 else 0)
  | .null => some 0
  | .undef => none

/-- JavaScript loose equality (==) on the modelled fragment: null and
undefined are equal to each other and to nothing else; two strings compare
as strings; every remaining comparison goes through ToNumber, and NaN is
equal to nothing. This is the comparison the source applies in
item[index] == value. -/
def looseEq : JSVal → JSVal → Bool
  | .null, .null => true
  | .null, .undef => true
  | .undef, .null => true
  | .undef, .undef => true
  | .null, _ => false
  | _, .null => false
  | .undef, _ => false
  | _, .undef => false
  | .str s, .str t => s = t
  | a, b =>
    match toNumber a, toNumber b with
    | some x, some y => x = y
    | _, _ => false

/-- Attribute lists: the own enumerable properties of a record object. -/
abbrev Attrs := List (String × JSVal)

/-- Property read item[index]: the stored value, or undefined when absent. -/
def getAttr : Attrs → String → JSVal
  | [], _ => .undef
  | kv :: rest, a => if kv.1 = a then kv.2 else getAttr rest a

/-- A table entry: an attribute map together with its object identity
(ref), which is what strict equality and Array.prototype.indexOf see. -/
structure Item where
  ref : Nat
  attrs : Attrs
deriving DecidableEq

/-- A database table: the ordered array of its items. -/
abbrev Table := List Item

/-- The db object: an association of table names to tables. -/
abbrev Store := List (String × Table)

/-- Property read db[table]: none models the undefined result for a name
that was never assigned (or was removed by the delete operator). -/
def dbGet : Store → String → Option Table
  | [], _ => none
  | kv :: rest, t => if kv.1 = t then some kv.2 else dbGet rest t

/-- Property write db[table] = tbl. -/
def dbSet : Store → String → Table → Store
  | [], t, tbl => [(t, tbl)]
  | kv :: rest, t, tbl =>
    if kv.1 = t then (kv.1, tbl) :: rest else kv :: dbSet rest t tbl

/-- One element of a get filter, as JavaScript callers can pass it: a scalar
string or number, a plain object of attribute equalities (its entries), or
one of the primitives the source never normalizes. -/
inductive GetFilterElem
  | str : String → GetFilterElem
  | num : Int → GetFilterElem
  | clause : Attrs → GetFilterElem
  | bool : Bool → GetFilterElem
  | null : GetFilterElem
  | undef : GetFilterElem
deriving DecidableEq

/-- A get filter: a single element or an array of elements. -/
inductive GetFilter
  | elem : GetFilterElem → GetFilter
  | arr : List GetFilterElem → GetFilter
deriving DecidableEq

/-- The step key = [].concat(key): an array is kept, anything else is
wrapped into a one-element array. -/
def concatKey : GetFilter → List GetFilterElem
  | .elem e => [e]
  | .arr l => l

/-- The normalization loop body: a string or number scalar val becomes the
object with the primary key as its only entry; everything else is kept. -/
def normElem (primKey : String) : GetFilterElem → GetFilterElem
  | .str s => .clause [(primKey, JSVal.str s)]
  | .num n => .clause [(primKey, JSVal.num n)]
  | e => e

/-- The whole normalization of the key argument in the source get. -/
def normalizeKey (primKey : String) (key : GetFilter) : List GetFilterElem :=
  (concatKey key).map (normElem primKey)

/-- Own enumerable entries of a boxed string: its indexed characters. -/
def stringEntries (s : String) : List (String × JSVal) :=
  s.toList.enum.map (fun p => (toString p.1, JSVal.str (String.singleton p.2)))

/-- Object.entries(keyObj) on a filter element: a plain object yields its
entry list, boxed booleans and numbers have no own enumerable properties,
a boxed string exposes its characters, and null or undefined throw a
TypeError. -/
def entriesOf : GetFilterElem → Except JSError (List (String × JSVal))
  | .clause l => .ok l
  | .bool _ => .ok []
  | .num _ => .ok []
  | .str s => .ok (stringEntries s)
  | .null => .error .typeError
  | .undef => .error .typeError

/-- Conjunctive clause match: every entry of the clause compares loosely
equal to the value of the item at that attribute. -/
def matchClause (item : Item) (cl : List (String × JSVal)) : Bool :=
  cl.all (fun kv => looseEq (getAttr item.attrs kv.1) kv.2)

/-- The predicate key.some(keyObj => Object.entries(keyObj).every(...)),
with the short-circuit of some and the possible TypeError of entries. -/
def matchesClauses : List GetFilterElem → Item → Except JSError Bool
  | [], _ => .ok false
  | c :: rest, item =>
    match entriesOf c with
    | .error e => .error e
    | .ok es => if matchClause item es then .ok true else matchesClauses rest item

/-- Array.prototype.filter with a callback that can throw: elements are
tested left to right and a thrown error aborts the whole call. -/
def filterJS (p : Item → Except JSError Bool) : Table → Except JSError Table
  | [] => .ok []
  | x :: xs =>
    match p x with
    | .error e => .error e
    | .ok b =>
      match filterJS p xs with
      | .error e => .error e
      | .ok rest => .ok (if b then x :: rest else rest)

/-- The array returned by get, remembering which table it came from so that
its attached delete capability can act on that table later. -/
structure GetResult where
  table : String
  records : List Item
deriving DecidableEq

/-- The argument of set: one item or an array of items. -/
inductive SetInput
  | one : Item → SetInput
  | many : List Item → SetInput
deriving DecidableEq

/-- The step obj = [].concat(obj) inside set. -/
def concatInput : SetInput → List Item
  | .one r => [r]
  | .many l => l

/-- Embeds the source _set: ensure db[table] is an array (creating it empty
when absent) and push all the given items onto its end. -/
def _set (db : Store) (table : String) (obj : SetInput) : Store :=
  dbSet db table (((dbGet db table).getD []) ++ concatInput obj)

/-- Embeds the source _get: normalize the key, then db[table].filter with
the disjunctive match; a missing table makes the filter call throw a
TypeError. The delete capability of the result is resultDelete below. -/
def _get (primKey : String) (db : Store) (table : String) (key : GetFilter) :
    Except JSError GetResult :=
  match dbGet db table with
  | none => .error .typeError
  | some tbl =>
    match filterJS (matchesClauses (normalizeKey primKey key)) tbl with
    | .error e => .error e
    | .ok res => .ok ⟨table, res⟩

/-- Array.prototype.indexOf under strict equality: the first index holding
the item, or -1 when it is absent. -/
def indexOf : Table → Item → Int
  | [], _ => -1
  | x :: xs, item =>
    if x = item then 0
    else
      let r := indexOf xs item
      if r < 0 then -1 else r + 1

/-- Array.prototype.splice(start, 1): a negative start counts from the end
and is clamped at 0; one element at the resolved index is removed. -/
def splice1 (tbl : Table) (start : Int) : Table :=
  let s : Nat := if start < 0 then ((tbl.length : Int) + start).toNat else start.toNat
  tbl.take s ++ tbl.drop (s + 1)

/-- Embeds the source deleteItem helper:
dbTable.splice(dbTable.indexOf(item), 1). When the item is absent indexOf
is -1 and splice(-1, 1) removes the last element of the table. -/
def deleteItem (dbTable : Table) (item : Item) : Table :=
  splice1 dbTable (indexOf dbTable item)

/-- Embeds the delete capability attached to a get result:
result.forEach(item => deleteItem(db[table], item)), invoked against the
store as it is at invocation time. With a non-empty captured list and a
missing table the first deleteItem call throws (undefined.indexOf). -/
def resultDelete (db : Store) (r : GetResult) : Except JSError Store :=
  match r.records, dbGet db r.table with
  | [], _ => .ok db
  | _ :: _, none => .error .typeError
  | recs, some tbl => .ok (dbSet db r.table (recs.foldl deleteItem tbl))

/-- Embeds the source _getAll: the bare property read db[table]. It never
throws; a missing table yields undefined (none). -/
def _getAll (db : Store) (table : String) : Except JSError (Option Table) :=
  .ok (dbGet db table)

/-- Embeds the source _update: its body is get(table, key).forEach(item =>
callback(item)), but the identifier get is unbound: the const declaration
list only ever binds _get, and the get: key of the Proxy handler is an
object-literal key, not a binding. Evaluating the call head therefore
throws a ReferenceError on every invocation, before the store, the filter
or the callback are touched. -/
def _update (primKey : String) (db : Store) (table : String) (key : GetFilter)
    (callback : Attrs → Attrs) : Except JSError Store :=
  .error .referenceError

/-- Embeds the source _delete: its body is get(table, key).forEach(item =>
deleteItem(db[table], item)), with the same unbound identifier get as in
_update, so every invocation throws a ReferenceError before the store or
the filter are touched. -/
def _delete (primKey : String) (db : Store) (table : String) (key : GetFilter) :
    Except JSError Store :=
  .error .referenceError

/-- Embeds the source _deleteAll: the delete operator removes the table
name from the db object. -/
def _deleteAll (db : Store) (table : String) : Store :=
  db.filter (fun kv => kv.1 != table)

/-- The two shapes of handle the source Proxy construction can produce. -/
inductive JSHandle
  | storeWide
  | tableScoped (table : String)
deriving DecidableEq

/-- Embeds the source _use: new Proxy(table ? db[table] : db, ...). A falsy
table argument (absent, or the empty string) targets the whole db; a truthy
name targets db[table], and when that is undefined the Proxy constructor
throws a TypeError. -/
def _use (db : Store) (table : Option String) : Except JSError JSHandle :=
  match table with
  | none => .ok .storeWide
  | some t =>
    if t = "" then .ok .storeWide
    else
      match dbGet db t with
      | some _ => .ok (.tableScoped t)
      | none => .error .typeError

/-- Embeds the source memDB entry point: a fresh empty db and the store
handle _use() over it. The primary key only parameterizes the operations. -/
def memDB (primKey : String) : Except JSError JSHandle :=
  _use [] none

/-- Spec-side normalization of one filter element into a clause, written
from the claim wording (for the refinement theorem, not from the source):
a scalar is shorthand for the object with the primary key attribute equal
to it; an object clause is its own entry list. Elements outside the claim
grammar get the empty clause. -/
def specElemClause (primKey : String) : GetFilterElem → Attrs
  | .str s => [(primKey, JSVal.str s)]
  | .num n => [(primKey, JSVal.num n)]
  | .clause l => l
  | _ => []

/-- Spec-side normalized clause sequence of a filter expression, written
from the claim wording: a non-sequence filter is a one-element sequence. -/
def specClauses (primKey : String) (key : GetFilter) : List Attrs :=
  (concatKey key).map (specElemClause primKey)

/-- Spec-side match, written from the claim wording: a record matches the
expression iff it matches at least one clause, and it matches a clause iff
every attribute and value pair of the clause compares loosely equal to the
value of the record at that attribute. -/
def specMatches (primKey : String) (key : GetFilter) (item : Item) : Bool :=
  (specClauses primKey key).any
    (fun cl => cl.all (fun kv => looseEq (getAttr item.attrs kv.1) kv.2))

/-- A filter element inside the grammar the claims quantify over: a scalar
string or number, or an attribute-equality object. -/
def isWFElem : GetFilterElem → Bool
  | .str _ => true
  | .num _ => true
  | .clause _ => true
  | _ => false

/-- A filter expression inside the claim grammar. -/
def isWFFilter (key : GetFilter) : Bool :=
  (concatKey key).all isWFElem

/-- Fixture for concrete witnesses: a first stored item. -/
def exItem1 : Item := ⟨1, [("id", JSVal.num 1), ("name", JSVal.str "a")]⟩

/-- Fixture for concrete witnesses: a second stored item. -/
def exItem2 : Item := ⟨2, [("id", JSVal.num 2), ("name", JSVal.str "b")]⟩

/-- Fixture for concrete witnesses: a store with one table holding both. -/
def exDB : Store := [("t", [exItem1, exItem2])]

/-! Helper lemmas about the store as an association list. -/

theorem dbGet_dbSet_self (db : Store) (t : String) (tbl : Table) :
    dbGet (dbSet db t tbl) t = some tbl := by
  induction db with
  | nil => simp [dbSet, dbGet]
  | cons kv rest ih =>
    by_cases h : kv.1 = t
    · simp [dbSet, dbGet, h]
    · simp [dbSet, dbGet, h, ih]

theorem dbGet_dbSet_ne (db : Store) (t t' : String) (tbl : Table) (h : t' ≠ t) :
    dbGet (dbSet db t tbl) t' = dbGet db t' := by
  induction db with
  | nil => simp [dbSet, dbGet, Ne.symm h]
  | cons kv rest ih =>
    by_cases hk : kv.1 = t
    · simp [dbSet, dbGet, hk, Ne.symm h]
    · by_cases hk2 : kv.1 = t'
      · simp [dbSet, dbGet, hk, hk2, h]
      · simp [dbSet, dbGet, hk, hk2, ih]

theorem dbSet_dbGet_eq (db : Store) (t : String) (tbl : Table)
    (h : dbGet db t = some tbl) : dbSet db t tbl = db := by
  induction db with
  | nil => simp [dbGet] at h
  | cons kv rest ih =>
    obtain ⟨k, v⟩ := kv
    by_cases hk : k = t
    · simp [dbGet, hk] at h
      simp [dbSet, hk, h]
    · simp [dbGet, hk] at h
      simp [dbSet, hk, ih h]

theorem dbGet_deleteAll (db : Store) (t : String) :
    dbGet (_deleteAll db t) t = none := by
  induction db with
  | nil => rfl
  | cons kv rest ih =>
    by_cases hk : kv.1 = t
    · simp [_deleteAll, hk] at ih ⊢
      exact ih
    · simp [_deleteAll, dbGet, hk] at ih ⊢
      exact ih

/-! Helper lemmas about the embedded Array.prototype.filter. -/

theorem filterJS_eq_filter {p : Item → Except JSError Bool} {q : Item → Bool} :
    ∀ l : Table, (∀ x ∈ l, p x = .ok (q x)) → filterJS p l = .ok (l.filter q) := by
  intro l
  induction l with
  | nil => intro _; rfl
  | cons x xs ih =>
    intro h
    have hx : p x = .ok (q x) := h x (List.mem_cons_self x xs)
    have hrest := ih (fun y hy => h y (List.mem_cons_of_mem x hy))
    cases hq : q x <;> simp [filterJS, hx, hrest, hq, List.filter_cons]

theorem filterJS_sublist {p : Item → Except JSError Bool} :
    ∀ {l res : Table}, filterJS p l = .ok res → List.Sublist res l := by
  intro l
  induction l with
  | nil =>
    intro res h
    simp [filterJS] at h
    simp [← h]
  | cons x xs ih =>
    intro res h
    cases hpx : p x with
    | error e => simp [filterJS, hpx] at h
    | ok b =>
      cases hrec : filterJS p xs with
      | error e => simp [filterJS, hpx, hrec] at h
      | ok rest =>
        simp [filterJS, hpx, hrec] at h
        cases b with
        | true =>
          simp at h
          rw [← h]
          exact List.Sublist.cons₂ x (ih hrec)
        | false =>
          simp at h
          rw [← h]
          exact List.Sublist.cons x (ih hrec)

/-! Helper lemmas connecting the source matcher with the spec-side matcher. -/

theorem matchesClauses_map_clause (cls : List Attrs) (item : Item) :
    matchesClauses (cls.map GetFilterElem.clause) item =
      .ok (cls.any (matchClause item)) := by
  induction cls with
  | nil => rfl
  | cons c rest ih =>
    cases hc : matchClause item c <;>
      simp [matchesClauses, entriesOf, hc, ih, List.any_cons]

theorem map_normElem_of_wf (pk : String) :
    ∀ es : List GetFilterElem, (∀ e ∈ es, isWFElem e = true) →
      es.map (normElem pk) = (es.map (specElemClause pk)).map GetFilterElem.clause := by
  intro es
  induction es with
  | nil => intro _; rfl
  | cons e rest ih =>
    intro h
    have he := h e (List.mem_cons_self e rest)
    have hrest := ih (fun x hx => h x (List.mem_cons_of_mem e hx))
    cases e <;> simp [isWFElem] at he <;> simp [normElem, specElemClause, hrest]

theorem normalizeKey_of_wf (pk : String) (key : GetFilter)
    (h : isWFFilter key = true) :
    normalizeKey pk key = (specClauses pk key).map GetFilterElem.clause := by
  rw [normalizeKey, specClauses]
  exact map_normElem_of_wf pk (concatKey key) (by simpa [isWFFilter, List.all_eq_true] using h)

theorem matchesClauses_of_wf (pk : String) (key : GetFilter) (item : Item)
    (h : isWFFilter key = true) :
    matchesClauses (normalizeKey pk key) item = .ok (specMatches pk key item) := by
  rw [normalizeKey_of_wf pk key h, matchesClauses_map_clause]
  rfl

theorem get_spec (pk : String) (db : Store) (t : String) (key : GetFilter)
    (tbl : Table) (h1 : dbGet db t = some tbl) (h2 : isWFFilter key = true) :
    _get pk db t key = .ok ⟨t, tbl.filter (fun item => specMatches pk key item)⟩ := by
  have hf := filterJS_eq_filter (p := matchesClauses (normalizeKey pk key))
    (q := fun item => specMatches pk key item) tbl
    (fun x _ => matchesClauses_of_wf pk key x h2)
  simp [_get, h1, hf]

/-! Helper lemmas about indexOf, splice and the deleteItem helper. -/

theorem indexOf_of_not_mem {a : Item} :
    ∀ {l : Table}, a ∉ l → indexOf l a = -1 := by
  intro l
  induction l with
  | nil => intro _; rfl
  | cons x xs ih =>
    intro h
    have hx : ¬(x = a) := fun he => h (he ▸ List.mem_cons_self x xs)
    have hxs : a ∉ xs := fun hm => h (List.mem_cons_of_mem x hm)
    simp [indexOf, hx, ih hxs]

theorem indexOf_nonneg_of_mem {a : Item} :
    ∀ {l : Table}, a ∈ l → 0 ≤ indexOf l a := by
  intro l
  induction l with
  | nil => intro h; cases h
  | cons x xs ih =>
    intro h
    by_cases hx : x = a
    · simp [indexOf, hx]
    · have hm : a ∈ xs := by
        cases h with
        | head => exact absurd rfl hx
        | tail _ hm => exact hm
      have hr := ih hm
      simp [indexOf, hx]
      omega

theorem deleteItem_cons_self (x : Item) (xs : Table) :
    deleteItem (x :: xs) x = xs := by
  simp [deleteItem, indexOf, splice1]

theorem splice1_succ (x : Item) (xs : Table) (i : Int) (h : 0 ≤ i) :
    splice1 (x :: xs) (i + 1) = x :: splice1 xs i := by
  obtain ⟨n, rfl⟩ := Int.eq_ofNat_of_zero_le h
  have h1 : ¬((n : Int) + 1 < 0) := by omega
  have h2 : ¬((n : Int) < 0) := by omega
  simp [splice1, h1, h2]

theorem deleteItem_cons_of_ne {a x : Item} (h : ¬(x = a)) {xs : Table}
    (hm : a ∈ xs) : deleteItem (x :: xs) a = x :: deleteItem xs a := by
  have hr := indexOf_nonneg_of_mem hm
  have hneg : ¬(indexOf xs a < 0) := by omega
  have hidx : indexOf (x :: xs) a = indexOf xs a + 1 := by
    simp [indexOf, h, hneg]
  rw [deleteItem, hidx, splice1_succ x xs _ hr, deleteItem]

theorem splice1_neg_one (l : Table) : splice1 l (-1) = l.dropLast := by
  cases l with
  | nil => rfl
  | cons x xs =>
    have hs : (((x :: xs).length : Int) + (-1)).toNat = xs.length := by
      simp [List.length_cons]
    have hneg : ((-1 : Int) < 0) := by omega
    simp only [splice1, if_pos hneg, hs]
    rw [List.drop_eq_nil_of_le (by simp [List.length_cons]), List.append_nil]
    rw [List.dropLast_eq_take]
    simp [List.length_cons]

theorem deleteItem_of_not_mem {a : Item} {l : Table} (h : a ∉ l) :
    deleteItem l a = l.dropLast := by
  rw [deleteItem, indexOf_of_not_mem h, splice1_neg_one]

theorem sublist_deleteItem {a : Item} :
    ∀ {cs l : Table}, List.Sublist (a :: cs) l → List.Sublist cs (deleteItem l a) := by
  intro cs l h
  induction l generalizing cs with
  | nil => cases h
  | cons y ys ih =>
    cases h with
    | cons₂ _ h' =>
      rw [deleteItem_cons_self]
      exact h'
    | cons _ h' =>
      by_cases hay : y = a
      · subst hay
        rw [deleteItem_cons_self]
        exact (List.sublist_cons_self y cs).trans h'
      · rw [deleteItem_cons_of_ne hay (h'.subset (List.mem_cons_self a cs))]
        exact List.Sublist.cons y (ih h')

theorem foldl_deleteItem_cons_of_ne {x : Item} :
    ∀ (cap : Table) {xs : Table}, (∀ c ∈ cap, c ≠ x) → List.Sublist cap xs →
      cap.foldl deleteItem (x :: xs) = x :: cap.foldl deleteItem xs := by
  intro cap
  induction cap with
  | nil => intro xs _ _; rfl
  | cons c cs ih =>
    intro xs hne hsub
    have hcx : ¬(x = c) := fun he => hne c (List.mem_cons_self c cs) he.symm
    have hcm : c ∈ xs := hsub.subset (List.mem_cons_self c cs)
    rw [List.foldl_cons, List.foldl_cons, deleteItem_cons_of_ne hcx hcm]
    exact ih (fun d hd => hne d (List.mem_cons_of_mem c hd)) (sublist_deleteItem hsub)

theorem foldl_deleteItem_filter (p : Item → Bool) :
    ∀ l : Table, (l.filter p).foldl deleteItem l = l.filter (fun x => !p x) := by
  intro l
  induction l with
  | nil => rfl
  | cons x xs ih =>
    cases hp : p x with
    | true =>
      rw [List.filter_cons_of_pos hp, List.filter_cons_of_neg (by simp [hp]),
        List.foldl_cons, deleteItem_cons_self]
      exact ih
    | false =>
      rw [List.filter_cons_of_neg (by simp [hp]), List.filter_cons_of_pos (by simp [hp])]
      rw [foldl_deleteItem_cons_of_ne (xs.filter p)
        (fun c hc he => by
          have := List.of_mem_filter hc
          rw [he, hp] at this
          exact Bool.false_ne_true this)
        (List.filter_sublist xs)]
      rw [ih]

theorem deleteItem_eq_filter_of_nodup {a : Item} :
    ∀ {l : Table}, l.Nodup → a ∈ l →
      deleteItem l a = l.filter (fun x => decide (x ≠ a)) := by
  intro l
  induction l with
  | nil => intro _ h; cases h
  | cons y ys ih =>
    intro hnd hm
    have hnd' := (List.nodup_cons.mp hnd)
    by_cases hy : y = a
    · subst hy
      rw [deleteItem_cons_self, List.filter_cons_of_neg (by simp)]
      exact (List.filter_eq_self.mpr (fun b hb => by
        simp only [decide_eq_true_eq]
        exact fun he => hnd'.1 (he ▸ hb))).symm
    · have hm' : a ∈ ys := by
        cases hm with
        | head => exact absurd rfl hy
        | tail _ h => exact h
      rw [deleteItem_cons_of_ne hy hm', List.filter_cons_of_pos (by simp [hy]),
        ih hnd'.2 hm']

theorem foldl_deleteItem_of_sublist :
    ∀ (cap : Table) {l : Table}, List.Sublist cap l → l.Nodup →
      cap.foldl deleteItem l = l.filter (fun x => decide (x ∉ cap)) := by
  intro cap
  induction cap with
  | nil =>
    intro l _ _
    simp
  | cons c cs ih =>
    intro l hsub hnd
    have hc : c ∈ l := hsub.subset (List.mem_cons_self c cs)
    have hdel : List.Sublist cs (deleteItem l c) := sublist_deleteItem hsub
    rw [List.foldl_cons]
    rw [ih hdel (by
      rw [deleteItem_eq_filter_of_nodup hnd hc]
      exact List.Nodup.filter _ hnd)]
    rw [deleteItem_eq_filter_of_nodup hnd hc, List.filter_filter]
    exact List.filter_congr (fun x _ => by
      simp [List.mem_cons, not_or, Bool.and_comm])

/-- C1: for every table, record and well-formed filter expression, get
returns exactly the records matching the filter under OR-of-ANDs semantics,
in table order: a scalar element is normalized to an equality object on the
primary key attribute, a non-sequence filter is a one-element sequence, a
record matches iff it matches at least one clause, and it matches a clause
iff every attribute and value pair compares equal under the loose,
type-coercing source equality. -/
theorem C1_get_or_of_ands (pk : String) (db : Store) (t : String)
    (key : GetFilter) (tbl : Table) (h1 : dbGet db t = some tbl)
    (h2 : isWFFilter key = true) :
    _get pk db t key = .ok ⟨t, tbl.filter (fun item => specMatches pk key item)⟩ :=
  get_spec pk db t key tbl h1 h2

/-- Witness for C1 at a concrete store: the filter mixing the scalar string
"1" (which loosely matches the number 1 stored under id) and the equality
clause on name "b" retrieves both records in table order. -/
theorem C1_get_or_of_ands_witness :
    _get "id" exDB "t" (GetFilter.arr [GetFilterElem.str "1",
      GetFilterElem.clause [("name", JSVal.str "b")]]) = .ok ⟨"t", [exItem1, exItem2]⟩ := by
  have h := C1_get_or_of_ands "id" exDB "t" (GetFilter.arr [GetFilterElem.str "1",
    GetFilterElem.clause [("name", JSVal.str "b")]]) [exItem1, exItem2] (by decide) (by decide)
  rw [h]
  decide

/-- C7: get never mutates the table. In this embedding _get consumes the
store without producing a new one, because the source never assigns to the
db object; the theorem states the aliasing part: the result is a sublist of
the stored table, so it consists of records owned by the table (same identity,
same attributes) in table order. -/
theorem C7_get_pure_read (pk : String) (db : Store) (t : String)
    (key : GetFilter) (tbl : Table) (r : GetResult) (h1 : dbGet db t = some tbl)
    (h2 : _get pk db t key = .ok r) :
    r.table = t ∧ List.Sublist r.records tbl := by
  simp only [_get, h1] at h2
  cases hf : filterJS (matchesClauses (normalizeKey pk key)) tbl with
  | error e => rw [hf] at h2; cases h2
  | ok res =>
    rw [hf] at h2
    cases h2
    exact ⟨rfl, filterJS_sublist hf⟩

/-- Witness for C7 at a concrete store: retrieving id 2 yields a result
whose records are a sublist of the stored table. -/
theorem C7_get_pure_read_witness :
    GetResult.table ⟨"t", [exItem2]⟩ = "t" ∧
    List.Sublist (GetResult.records ⟨"t", [exItem2]⟩) [exItem1, exItem2] :=
  C7_get_pure_read "id" exDB "t" (GetFilter.elem (GetFilterElem.num 2))
    [exItem1, exItem2] ⟨"t", [exItem2]⟩ (by decide) (by decide)

/-- C8: an empty clause object matches every record (vacuous AND), so get
with the empty object returns the whole table, while an empty filter
sequence matches no record (vacuous OR), so get with the empty array
returns the empty sequence. -/
theorem C8_empty_filters (pk : String) (db : Store) (t : String) (tbl : Table)
    (h : dbGet db t = some tbl) :
    _get pk db t (GetFilter.elem (GetFilterElem.clause [])) = .ok ⟨t, tbl⟩ ∧
    _get pk db t (GetFilter.arr []) = .ok ⟨t, []⟩ := by
  constructor
  · rw [get_spec pk db t (GetFilter.elem (GetFilterElem.clause [])) tbl h rfl]
    have hall : tbl.filter
        (fun item => specMatches pk (GetFilter.elem (GetFilterElem.clause [])) item) = tbl :=
      List.filter_eq_self.mpr (fun a _ => rfl)
    rw [hall]
  · rw [get_spec pk db t (GetFilter.arr []) tbl h rfl]
    have hnone : tbl.filter (fun item => specMatches pk (GetFilter.arr []) item) = [] :=
      List.filter_eq_nil_iff.mpr (fun a _ => by simp [specMatches, specClauses, concatKey])
    rw [hnone]

/-- Witness for C8 at a concrete store. -/
theorem C8_empty_filters_witness :
    _get "id" exDB "t" (GetFilter.elem (GetFilterElem.clause [])) = .ok ⟨"t", [exItem1, exItem2]⟩ ∧
    _get "id" exDB "t" (GetFilter.arr []) = .ok ⟨"t", []⟩ :=
  C8_empty_filters "id" exDB "t" [exItem1, exItem2] (by decide)

/-- C5: set (the insert operation) creates the table if absent, appends all
given records in input order to the end of the existing sequence, leaves
previously stored records unchanged (they form the prefix), and leaves
every other table untouched. -/
theorem C5_set_appends (db : Store) (t : String) (obj : SetInput) :
    dbGet (_set db t obj) t = some (((dbGet db t).getD []) ++ concatInput obj) ∧
    ∀ t', t' ≠ t → dbGet (_set db t obj) t' = dbGet db t' := by
  refine ⟨?_, ?_⟩
  · rw [_set, dbGet_dbSet_self]
  · intro t' h
    rw [_set, dbGet_dbSet_ne db t t' _ h]

/-- Witness for C5: inserting into an absent table creates it, and the
other table is untouched. -/
theorem C5_set_appends_witness :
    dbGet (_set exDB "u" (SetInput.one exItem1)) "u" = some [exItem1] ∧
    dbGet (_set exDB "u" (SetInput.one exItem1)) "t" = some [exItem1, exItem2] := by
  have h := C5_set_appends exDB "u" (SetInput.one exItem1)
  refine ⟨?_, ?_⟩
  · rw [h.1]
    decide
  · rw [h.2 "t" (by decide)]
    decide

/-- C6 as stated is false: getAll on a missing table does not fail with any
error; it returns undefined (the bare property read db[table]). -/
theorem C6_getAll_missing_cex :
    _getAll ([] : Store) "users" = .ok none ∧
    _getAll ([] : Store) "users" ≠ .error JSError.typeError := by
  decide

/-- C6 amended: getAll returns the live record sequence of an existing
table; on a table that does not exist (never inserted into, or removed by
deleteAll) it completes without raising and returns undefined; right after
an insert it shows the appended sequence. -/
theorem C6_getAll_live_or_undefined (db : Store) (t : String) (tbl : Table)
    (obj : SetInput) :
    (dbGet db t = some tbl → _getAll db t = .ok (some tbl)) ∧
    (dbGet db t = none → _getAll db t = .ok none) ∧
    _getAll (_deleteAll db t) t = .ok none ∧
    _getAll (_set db t obj) t = .ok (some (((dbGet db t).getD []) ++ concatInput obj)) := by
  refine ⟨fun h => by rw [_getAll, h], fun h => by rw [_getAll, h], ?_, ?_⟩
  · rw [_getAll, dbGet_deleteAll]
  · rw [_getAll, _set, dbGet_dbSet_self]

/-- Witness for C6 amended at a concrete store. -/
theorem C6_getAll_live_or_undefined_witness :
    _getAll exDB "t" = .ok (some [exItem1, exItem2]) ∧
    _getAll (_deleteAll exDB "t") "t" = .ok none := by
  have h := C6_getAll_live_or_undefined exDB "t" [exItem1, exItem2] (SetInput.one exItem1)
  exact ⟨h.1 (by decide), h.2.2.1⟩

/-- C3 describes intended behavior the program does not have: the source
body of update calls the unbound identifier get, so every invocation of
update throws a ReferenceError before any retrieval or callback happens.
The theorem evaluates the code on the concrete failing input of the claim
sources (update matched record with a callback) and on every input. -/
theorem C3_update_throws :
    _update "id" exDB "t" (GetFilter.elem (GetFilterElem.num 1))
      (fun a => ("x", JSVal.num 5) :: a) = .error JSError.referenceError ∧
    ∀ (pk : String) (db : Store) (t : String) (key : GetFilter) (cb : Attrs → Attrs),
      _update pk db t key cb = .error JSError.referenceError :=
  ⟨rfl, fun _ _ _ _ _ => rfl⟩

/-- C4 describes intended behavior the program does not have: the source
body of delete calls the same unbound identifier get as update, so every
invocation of delete throws a ReferenceError before any retrieval or
removal happens. The theorem evaluates the code on the concrete failing
input (delete the record with id 1 from the stored table) and on every
input. -/
theorem C4_delete_throws :
    _delete "id" exDB "t" (GetFilter.elem (GetFilterElem.num 1)) = .error JSError.referenceError ∧
    ∀ (pk : String) (db : Store) (t : String) (key : GetFilter),
      _delete pk db t key = .error JSError.referenceError :=
  ⟨rfl, fun _ _ _ _ => rfl⟩

/-- C2 as stated is false at a concrete input: the claim extends the
capability guarantee to every table state, including states where some
referenced records were already removed. Retrieving id 1 captures exactly
the first record; invoking the capability once removes it correctly; but
invoking it again, when the captured record is no longer in the table,
removes the second record (indexOf yields -1 and splice(-1, 1) drops the
last element), a record that was never in the result. -/
theorem C2_delete_capability_cex :
    _get "id" exDB "t" (GetFilter.elem (GetFilterElem.num 1)) = .ok ⟨"t", [exItem1]⟩ ∧
    resultDelete exDB ⟨"t", [exItem1]⟩ = .ok [("t", [exItem2])] ∧
    resultDelete [("t", [exItem2])] ⟨"t", [exItem1]⟩ = .ok [("t", ([] : Table))] := by
  decide

/-- C2 amended: when every record captured by the retrieval result is still
present in the (duplicate-free) table at invocation time, invoking the
deletion capability removes from the table precisely the captured records,
selected by reference identity, and nothing else; when a captured record is
absent, the invocation instead drops the last record of the table. -/
theorem C2_delete_capability (db : Store) (t : String) (tbl cap : Table)
    (h1 : dbGet db t = some tbl) (h2 : List.Sublist cap tbl) (h3 : tbl.Nodup) :
    resultDelete db ⟨t, cap⟩ = .ok (dbSet db t (tbl.filter (fun x => decide (x ∉ cap)))) := by
  cases cap with
  | nil =>
    have hfil : tbl.filter (fun x => decide (x ∉ ([] : Table))) = tbl :=
      List.filter_eq_self.mpr (fun a _ => by simp)
    rw [hfil, dbSet_dbGet_eq db t tbl h1]
    cases hdb : dbGet db t with
    | none => simp [resultDelete, hdb]
    | some tb => simp [resultDelete, hdb]
  | cons c cs =>
    simp only [resultDelete, h1]
    rw [foldl_deleteItem_of_sublist (c :: cs) h2 h3]

/-- Witness for C2 amended at a concrete store: invoking the capability
that captured the first record, while it is still stored, removes exactly
that record. -/
theorem C2_delete_capability_witness :
    resultDelete exDB ⟨"t", [exItem1]⟩ = .ok [("t", [exItem2])] := by
  have h := C2_delete_capability exDB "t" [exItem1, exItem2] [exItem1]
    (by decide) (by decide) (by decide)
  rw [h]
  decide

/-- C9 as stated is false at a concrete input: a boolean filter clause is
neither scalar nor attribute-equality object nor a sequence of these, yet
get raises no error at all; the boolean survives normalization,
Object.entries on it is empty, and the empty conjunction matches every
record, so the whole table is returned. -/
theorem C9_invalid_clause_cex :
    _get "id" exDB "t" (GetFilter.elem (GetFilterElem.bool true)) =
      .ok ⟨"t", [exItem1, exItem2]⟩ := by
  decide

/-- C9 amended: no operation raises an InvalidFilter error. On a non-empty
table, a null or undefined clause makes get throw a TypeError (from
Object.entries) synchronously to the caller, while a boolean clause raises
nothing and matches every record of the table; update and delete never
interpret their filter at all: they throw a ReferenceError (the unbound
identifier get) on every invocation, whatever the filter. -/
theorem C9_invalid_clause_behavior (pk : String) (db : Store) (t : String)
    (x : Item) (xs : Table) (cb : Attrs → Attrs) (b : Bool) (k : GetFilter)
    (h : dbGet db t = some (x :: xs)) :
    _get pk db t (GetFilter.elem GetFilterElem.null) = .error .typeError ∧
    _get pk db t (GetFilter.elem GetFilterElem.undef) = .error .typeError ∧
    _get pk db t (GetFilter.elem (GetFilterElem.bool b)) = .ok ⟨t, x :: xs⟩ ∧
    _update pk db t k cb = .error .referenceError ∧
    _delete pk db t k = .error .referenceError := by
  have hnull : _get pk db t (GetFilter.elem GetFilterElem.null) = .error .typeError := by
    simp only [_get, h]
    rfl
  have hundef : _get pk db t (GetFilter.elem GetFilterElem.undef) = .error .typeError := by
    simp only [_get, h]
    rfl
  have hbool : _get pk db t (GetFilter.elem (GetFilterElem.bool b)) = .ok ⟨t, x :: xs⟩ := by
    have hf := filterJS_eq_filter (p := matchesClauses (normalizeKey pk
      (GetFilter.elem (GetFilterElem.bool b)))) (q := fun _ => true) (x :: xs)
      (fun y _ => rfl)
    simp only [_get, h, hf]
    rw [List.filter_eq_self.mpr (fun a _ => rfl)]
  exact ⟨hnull, hundef, hbool, rfl, rfl⟩

/-- Witness for C9 amended at a concrete store. -/
theorem C9_invalid_clause_behavior_witness :
    _get "id" exDB "t" (GetFilter.elem GetFilterElem.null) = .error JSError.typeError ∧
    _get "id" exDB "t" (GetFilter.elem (GetFilterElem.bool false)) =
      .ok ⟨"t", [exItem1, exItem2]⟩ ∧
    _update "id" exDB "t" (GetFilter.elem GetFilterElem.null) id = .error JSError.referenceError ∧
    _delete "id" exDB "t" (GetFilter.elem GetFilterElem.null) = .error JSError.referenceError := by
  have h := C9_invalid_clause_behavior "id" exDB "t" exItem1 [exItem2] id false
    (GetFilter.elem GetFilterElem.null) (by decide)
  exact ⟨h.1, h.2.2.1, h.2.2.2.1, h.2.2.2.2⟩

/-- C10 as stated is false at a concrete input: the empty string is a table
name that is not present in the store, yet use of it does not fail; the
empty string is falsy, so the source falls back to the store-wide branch
and returns a handle over the whole db. -/
theorem C10_use_empty_name_cex :
    dbGet ([] : Store) "" = none ∧
    _use ([] : Store) (some "") = .ok JSHandle.storeWide := by
  decide

/-- C10 amended: for every non-empty table name absent from the store, use
fails immediately with a TypeError while constructing the handle (the Proxy
is built over the undefined table value), so a table-scoped handle cannot
be obtained before the first insert; use with no argument (as the memDB
entry point does) or with the falsy empty-string name yields the store-wide
handle; a non-empty existing name yields the table-scoped handle. -/
theorem C10_use_handle (db : Store) (t : String) (tbl : Table) (pk : String) :
    (t ≠ "" → dbGet db t = none → _use db (some t) = .error .typeError) ∧
    _use db none = .ok .storeWide ∧
    _use db (some "") = .ok .storeWide ∧
    (t ≠ "" → dbGet db t = some tbl → _use db (some t) = .ok (.tableScoped t)) ∧
    memDB pk = .ok .storeWide := by
  refine ⟨?_, rfl, by simp [_use], ?_, rfl⟩
  · intro h1 h2
    simp [_use, h1, h2]
  · intro h1 h2
    simp [_use, h1, h2]

/-- Witness for C10 amended: over the concrete store, a missing non-empty
name fails, an existing name is table-scoped, no argument is store-wide. -/
theorem C10_use_handle_witness :
    _use exDB (some "users") = .error JSError.typeError ∧
    _use exDB (some "t") = .ok (JSHandle.tableScoped "t") ∧
    _use exDB none = .ok JSHandle.storeWide := by
  have h := C10_use_handle exDB "users" [exItem1, exItem2] "id"
  have h2 := C10_use_handle exDB "t" [exItem1, exItem2] "id"
  exact ⟨h.1 (by decide) (by decide), h2.2.2.2.1 (by decide) (by decide), h.2.1⟩
